import Mathlib

/-!
Verification of the Dashboard Data Pipeline (src/streamlit_app.py).

The dataset is a pandas DataFrame loaded from a CSV; we embed it as a
`List Record`, one `Record` per row, in file order.  Each data-transforming
pandas call of the script is embedded as a Lean function on `List Record`,
translated from the call's semantics:

* `eyewear_df.nlargest(n, col)` (line 97): pandas `nlargest` with the default
  `keep = first` branches on n (`SelectN.compute`).  For n < len(df) (fast
  path) it argsorts the negated column with a stable mergesort, so both
  selection and output order are the stable descending order (ties in
  original row order).  For n >= len(df) (slow path) it returns
  `sort_values(ascending=ascending).head(n)`, i.e. the descending
  `sort_values` order whose ties are reversed — see the last bullet.  Any
  sorting algorithm computes the fast path's order, since index-tiebreaking
  makes it a total linear order; we use `List.insertionSort` over index/row
  pairs.
* `eyewear_df.groupby(k).agg(sum).reset_index()` (lines 111-115, 182-186):
  one output row per distinct key, keys sorted ascending (pandas groupby
  default `sort = True`), each numeric column summed over the key's rows.
* `stats[stats[k] == g][col].values[0]` (lines 122, 128): selects the cited
  column of the matching group rows; `.values[0]` raises `IndexError` when no
  row matches, which we embed as `Option.none` via `List.head?`.
* `df['Domain'].str.contains(pat, case=False, na=False)` (line 152): regex
  search with `re.IGNORECASE`; for a literal pattern this is case-insensitive
  substring search, embedded by case-folding both sides with `Char.toLower`.
  The pattern actually passed, `'meta|ray-ban'`, uses regex alternation, so
  the page's filter keeps a row when either literal matches.
* `df[df['Category'].isin(cats)]` (line 222): filter by membership.
* `df.sort_values(by, ascending=False)` (line 230): pandas computes an
  ascending argsort of the column and then reverses the indexer
  (`nargsort`: `indexer = indexer[::-1]`).  The default kind `quicksort`
  makes tie order unspecified in general, but numpy's introsort is insertion
  sort (stable) on small arrays, so on small inputs the output is exactly the
  reverse of the stable ascending order: ties come out in reversed original
  order.  We embed that: stable ascending sort of index/row pairs, reversed.
* `pd.read_csv(path)` (line 25): raises on a missing file or on rows with
  more fields than the header, and performs no schema validation at all.
-/

/-- One row of `data/eyewear_domains_augmented.csv` (§3 of the spec):
Domain, Category, Audience Cluster, # of times Cited, # of URLs,
# of Queries, Rank. -/
structure Record where
  domain : String
  category : String
  audienceCluster : String
  cited : Nat
  urls : Nat
  queries : Nat
  rank : Int
deriving DecidableEq, Repr

/-- The numeric columns a metric/sort key can select
(the page offers exactly these four, line 227). -/
inductive NumCol where
  | cited
  | urls
  | queries
  | rank
deriving DecidableEq, Repr

/-- Value of a numeric column in a row. -/
def colVal : NumCol → Record → Int
  | NumCol.cited, r => r.cited
  | NumCol.urls, r => r.urls
  | NumCol.queries, r => r.queries
  | NumCol.rank, r => r.rank

/-- Descending order on index/row pairs with ties broken by original
position: the order in which `nlargest(n, col)` (keep = first) emits rows. -/
def descRel (key : Record → Int) (a b : Nat × Record) : Prop :=
  key b.2 < key a.2 ∨ (key a.2 = key b.2 ∧ a.1 ≤ b.1)

instance (key : Record → Int) : DecidableRel (descRel key) := fun a b =>
  inferInstanceAs (Decidable (_ ∨ _))

instance (key : Record → Int) : IsTotal (Nat × Record) (descRel key) := by
  constructor
  intro a b
  unfold descRel
  omega

instance (key : Record → Int) : IsTrans (Nat × Record) (descRel key) := by
  constructor
  intro a b c hab hbc
  unfold descRel at hab hbc ⊢
  omega

/-- Ascending order on index/row pairs with ties broken by original position:
the argsort order `sort_values` computes before reversing. -/
def ascRel (key : Record → Int) (a b : Nat × Record) : Prop :=
  key a.2 < key b.2 ∨ (key a.2 = key b.2 ∧ a.1 ≤ b.1)

instance (key : Record → Int) : DecidableRel (ascRel key) := fun a b =>
  inferInstanceAs (Decidable (_ ∨ _))

instance (key : Record → Int) : IsTotal (Nat × Record) (ascRel key) := by
  constructor
  intro a b
  unfold ascRel
  omega

instance (key : Record → Int) : IsTrans (Nat × Record) (ascRel key) := by
  constructor
  intro a b c hab hbc
  unfold ascRel at hab hbc ⊢
  omega

/-- The enumerated dataset in the stable descending order of `key`
(the full sorted order underlying `nlargest`). -/
def sortIdxDesc (key : Record → Int) (d : List Record) : List (Nat × Record) :=
  List.insertionSort (descRel key) d.enum

/-- Line 230 (and the slow path of `nlargest`, below):
`sort_values(by=..., ascending=False)`.  pandas reverses an ascending
argsort (`nargsort`: `indexer = indexer[::-1]`), so the output is the
reverse of the stable ascending order; ties therefore come out in reversed
original order, not original order. -/
def sort_values_desc (key : Record → Int) (d : List Record) : List Record :=
  ((List.insertionSort (ascRel key) d.enum).map (fun p => p.2)).reverse

/-- `d.nlargest(n, col)` with column value `key`.  pandas branches on `n`
(`SelectN.compute`): when `n >= len(df)` it delegates to the slow path
`sort_values(ascending=False).head(n)`, whose tied rows come out reversed;
when `n < len(df)` the fast path argsorts the negated column with a stable
mergesort, i.e. takes the first `n` rows of the stable descending order
(ties in original row order). -/
def nlargestBy (key : Record → Int) (n : Nat) (d : List Record) : List Record :=
  if d.length ≤ n then
    (sort_values_desc key d).take n
  else
    ((sortIdxDesc key d).take n).map (fun p => p.2)

/-- The rows `nlargest` leaves out: the rest of the same ordering
(empty on the slow path, which returns every row). -/
def nlargestOmitted (key : Record → Int) (n : Nat) (d : List Record) : List Record :=
  if d.length ≤ n then
    (sort_values_desc key d).drop n
  else
    ((sortIdxDesc key d).drop n).map (fun p => p.2)

/-- Line 97: `eyewear_df.nlargest(top_n, '# of times Cited')`. -/
def top_domains (n : Nat) (d : List Record) : List Record :=
  nlargestBy (colVal NumCol.cited) n d

/-- The distinct values of `key` over the dataset, sorted ascending:
the index of `groupby(key).agg(...)` with the default `sort = True`. -/
def groupKeys (key : Record → String) (d : List Record) : List String :=
  List.insertionSort (fun a b => a ≤ b) ((d.map key).dedup)

/-- `d.groupby(key).agg(sum of cited, urls, queries).reset_index()`
(lines 111-115 and 182-186): one row per distinct key with the three
column sums over that key's rows. -/
def groupAgg (key : Record → String) (d : List Record) :
    List (String × Nat × Nat × Nat) :=
  (groupKeys key d).map (fun g =>
    (g, ((d.filter (fun r => decide (key r = g))).map Record.cited).sum,
        ((d.filter (fun r => decide (key r = g))).map Record.urls).sum,
        ((d.filter (fun r => decide (key r = g))).map Record.queries).sum))

/-- Lines 111-115: `eyewear_df.groupby('Category').agg(...)`. -/
def category_stats (d : List Record) : List (String × Nat × Nat × Nat) :=
  groupAgg Record.category d

/-- Lines 182-186: `eyewear_df.groupby('Audience Cluster').agg(...)`. -/
def audience_stats (d : List Record) : List (String × Nat × Nat × Nat) :=
  groupAgg Record.audienceCluster d

/-- `stats[stats[groupCol] == g]['# of times Cited'].values`:
the cited totals of the group rows matching `g` (a one- or zero-element
list, since group keys are distinct). -/
def citedValues (stats : List (String × Nat × Nat × Nat)) (g : String) :
    List Nat :=
  (stats.filter (fun p => decide (p.1 = g))).map (fun p => p.2.1)

/-- Line 122: `category_stats[category_stats["Category"] == "Earned"]
["# of times Cited"].values[0]` — unguarded subscript; `none` embeds the
`IndexError` raised when no row has Category "Earned". -/
def totalCitationsEarned (d : List Record) : Option Nat :=
  (citedValues (category_stats d) "Earned").head?

/-- Line 128: same unguarded lookup for Category "Social". -/
def totalCitationsSocial (d : List Record) : Option Nat :=
  (citedValues (category_stats d) "Social").head?

/-- Lines 191-194: `f'{general_citations[0]:.0f}' if len(general_citations)
> 0 else 'N/A'` — the guarded audience lookup. -/
def generalAudienceCitations (d : List Record) : String :=
  match (citedValues (audience_stats d) "general").head? with
  | some v => toString v
  | none => "N/A"

/-- Lines 198-201: the guarded audience lookup for cluster "techie". -/
def techieAudienceCitations (d : List Record) : String :=
  match (citedValues (audience_stats d) "techie").head? with
  | some v => toString v
  | none => "N/A"

/-- ASCII case-insensitive character comparison (`re.IGNORECASE`). -/
def charLowerEq (a b : Char) : Bool :=
  a.toLower == b.toLower

/-- Does the pattern match a prefix of the text, case-insensitively? -/
def prefixCI : List Char → List Char → Bool
  | [], _ => true
  | _ :: _, [] => false
  | p :: ps, s :: ss => charLowerEq p s && prefixCI ps ss

/-- `re.search` of a literal pattern with `re.IGNORECASE`: does the pattern
occur, case-insensitively, anywhere in the text? -/
def searchCI (p : List Char) : List Char → Bool
  | [] => prefixCI p []
  | c :: s => prefixCI p (c :: s) || searchCI p s

/-- `s.str.contains(pat, case=False)` for a literal (regex-free) pattern. -/
def strContainsCI (s pat : String) : Bool :=
  searchCI pat.toList s.toList

/-- The Brand Substring Filter (§4.4) at an arbitrary literal pattern:
rows whose Domain contains the pattern, ignoring case. -/
def brandFilterCI (pat : String) (d : List Record) : List Record :=
  d.filter (fun r => strContainsCI r.domain pat)

/-- Lines 151-153: `eyewear_df[eyewear_df['Domain'].str.contains(
'meta|ray-ban', case=False, na=False)]` — the `|` is regex alternation, so a
row is kept when either literal matches. -/
def meta_brands (d : List Record) : List Record :=
  d.filter (fun r => strContainsCI r.domain "meta" || strContainsCI r.domain "ray-ban")

/-- Line 162: guarded lookup of the meta.com row's citations inside
`meta_brands`, else the "N/A" sentinel. -/
def metaComCitations (d : List Record) : String :=
  match ((meta_brands d).filter (fun r => decide (r.domain = "meta.com"))).head? with
  | some r => toString r.cited
  | none => "N/A"

/-- Line 168: the same guarded lookup for ray-ban.com. -/
def rayBanComCitations (d : List Record) : String :=
  match ((meta_brands d).filter (fun r => decide (r.domain = "ray-ban.com"))).head? with
  | some r => toString r.cited
  | none => "N/A"

/-- Case-folded character list of a string (both sides of the
case-insensitive match are folded with `Char.toLower`). -/
def lowerChars (s : String) : List Char :=
  s.toList.map Char.toLower

/-- `pandas.unique` / `Series.unique()` order: distinct values in order of
first occurrence (line 218: `eyewear_df['Category'].unique()`; the page
passes it to `isin`, which only uses membership). -/
def uniqueFirst : List String → List String
  | [] => []
  | c :: cs => c :: (uniqueFirst cs).filter (fun x => decide (x ≠ c))

/-- Lines 216-220: the multiselect's option set and default value, i.e. the
distinct Category values of the dataset. -/
def distinctCategories (d : List Record) : List String :=
  uniqueFirst (d.map Record.category)

/-- Line 222: `eyewear_df[eyewear_df['Category'].isin(selected_category)]`. -/
def filterByCategories (cats : List String) (d : List Record) : List Record :=
  d.filter (fun r => cats.contains r.category)

/-- The Data Explorer view (lines 216-230): category inclusion filter, then
descending sort by the chosen column. -/
def dataExplorer (cats : List String) (col : NumCol) (d : List Record) :
    List Record :=
  sort_values_desc (colVal col) (filterByCategories cats d)

/-- A parsed CSV file: header row plus data rows. -/
structure CsvFile where
  header : List String
  rows : List (List String)
deriving DecidableEq, Repr

/-- The ways the loader can fail (§7 `DataLoadError`). -/
inductive DataLoadError where
  | fileNotFound
  | parserError
deriving DecidableEq, Repr

/-- Line 25: `pd.read_csv(DATA_FILENAME)`.  The argument is `none` when no
file exists at the path (pandas raises `FileNotFoundError`) and `some` the
parsed table otherwise; pandas raises `ParserError` when a data row has more
fields than the header, and performs no validation of column names. -/
def read_csv (file : Option CsvFile) : Except DataLoadError CsvFile :=
  match file with
  | none => Except.error DataLoadError.fileNotFound
  | some t =>
    if t.rows.all (fun r => decide (r.length ≤ t.header.length)) then
      Except.ok t
    else
      Except.error DataLoadError.parserError

/-- The columns §3/§6 of the spec require. -/
def requiredColumns : List String :=
  ["Domain", "Category", "Audience Cluster", "# of times Cited",
   "# of URLs", "# of Queries", "Rank"]

/-- Lines 14-27: `get_brand_data` — loads the CSV and returns it as-is.
There is no try/except and no column check between `read_csv` and `return`. -/
def get_brand_data (file : Option CsvFile) : Except DataLoadError CsvFile :=
  read_csv file

/-- One aggregation view of the page, with its user-selected parameters. -/
inductive ViewOp where
  | topN (n : Nat)
  | categoryAgg
  | audienceAgg
  | brandMask
  | explorer (cats : List String) (col : NumCol)
deriving DecidableEq, Repr

/-- A view's output: a row subset or a group-aggregate table. -/
inductive ViewOut where
  | rows (rs : List Record)
  | stats (s : List (String × Nat × Nat × Nat))
deriving DecidableEq, Repr

/-- Running one view against the dataset.  The first component is what
`eyewear_df` refers to after the computation: every pandas call the page
makes (`nlargest`, `groupby.agg`, boolean masking, `sort_values`) allocates
a new frame, no call is passed `inplace=True`, and the script never rebinds
`eyewear_df`, so the dataset component is returned unchanged. -/
def applyView : ViewOp → List Record → List Record × ViewOut
  | ViewOp.topN n, d => (d, ViewOut.rows (top_domains n d))
  | ViewOp.categoryAgg, d => (d, ViewOut.stats (category_stats d))
  | ViewOp.audienceAgg, d => (d, ViewOut.stats (audience_stats d))
  | ViewOp.brandMask, d => (d, ViewOut.rows (meta_brands d))
  | ViewOp.explorer cats col, d => (d, ViewOut.rows (dataExplorer cats col d))

/-- The dataset as seen after running a sequence of views. -/
def runViews (ops : List ViewOp) (d : List Record) : List Record :=
  ops.foldl (fun s op => (applyView op s).1) d

/-- Line 134: the "Overall Unique Domains" metric is `len(eyewear_df)`,
the row count. -/
def overallUniqueDomains (d : List Record) : Nat :=
  d.length

/-! ### Concrete sample datasets used by witnesses and counterexamples -/

/-- meta.com row of the §8 scenario. -/
def rMeta : Record := ⟨"meta.com", "Earned", "techie", 50, 5, 5, 1⟩

/-- ray-ban.com row of the §8 scenario. -/
def rRay : Record := ⟨"ray-ban.com", "Earned", "general", 44, 4, 4, 2⟩

/-- bestbuy.com row of the §8 scenario. -/
def rBest : Record := ⟨"bestbuy.com", "Social", "general", 30, 3, 3, 3⟩

/-- The three-row scenario dataset of §8 of the spec. -/
def dScen : List Record := [rMeta, rRay, rBest]

/-- A row tied on every numeric column with `rTieB`, occurring first. -/
def rTieA : Record := ⟨"alpha.com", "Earned", "general", 5, 1, 1, 7⟩

/-- A row tied on `# of times Cited` with `rTieA`, occurring second. -/
def rTieB : Record := ⟨"beta.com", "Earned", "general", 5, 2, 2, 8⟩

/-- A two-row dataset whose rows are tied on `# of times Cited`. -/
def dTie : List Record := [rTieA, rTieB]

/-! ### Sorting infrastructure lemmas -/

/-- The stable descending order is a permutation of the enumerated dataset. -/
lemma sortIdxDesc_perm (key : Record → Int) (d : List Record) :
    (sortIdxDesc key d).Perm d.enum :=
  List.perm_insertionSort _ _

/-- The stable descending order is sorted by `descRel`. -/
lemma sortIdxDesc_sorted (key : Record → Int) (d : List Record) :
    (sortIdxDesc key d).Pairwise (descRel key) :=
  List.sorted_insertionSort _ _

/-- Original positions in the stable descending order are pairwise distinct. -/
lemma sortIdxDesc_fst_nodup (key : Record → Int) (d : List Record) :
    ((sortIdxDesc key d).map (fun p => p.1)).Nodup := by
  have h : ((sortIdxDesc key d).map (fun p => p.1)).Perm (List.range d.length) := by
    have := (sortIdxDesc_perm key d).map (fun p : Nat × Record => p.1)
    rwa [show (d.enum.map (fun p : Nat × Record => p.1)) = List.range d.length from
      List.enum_map_fst d] at this
  exact h.symm.nodup (List.nodup_range _)

/-- The rows of the stable descending order, in order, are a permutation of
the dataset. -/
lemma sortIdxDesc_snd_perm (key : Record → Int) (d : List Record) :
    ((sortIdxDesc key d).map (fun p => p.2)).Perm d := by
  have := (sortIdxDesc_perm key d).map (fun p : Nat × Record => p.2)
  rwa [show (d.enum.map (fun p : Nat × Record => p.2)) = d from List.enum_map_snd d] at this

/-- `sort_values(ascending=False)` is a permutation of its input. -/
lemma sort_values_desc_perm (key : Record → Int) (d : List Record) :
    (sort_values_desc key d).Perm d := by
  rw [sort_values_desc]
  refine (List.reverse_perm _).trans ?_
  have := (List.perm_insertionSort (ascRel key) d.enum).map (fun p : Nat × Record => p.2)
  rwa [show (d.enum.map (fun p : Nat × Record => p.2)) = d from List.enum_map_snd d] at this

/-- `sort_values(ascending=False)` is sorted descending by the column. -/
lemma sort_values_desc_sorted (key : Record → Int) (d : List Record) :
    (sort_values_desc key d).Pairwise (fun a b => key b ≤ key a) := by
  rw [sort_values_desc, List.pairwise_reverse]
  have hs : (List.insertionSort (ascRel key) d.enum).Pairwise (ascRel key) :=
    List.sorted_insertionSort _ _
  exact hs.map _ (by
    intro a b hab
    rcases hab with h | h
    · exact le_of_lt h
    · exact le_of_eq h.1)

/-- Claim C2: for every dataset, metric column and N, the Top-N Selector
(`nlargest`, line 97) returns exactly `min N |D|` records, sorted descending
by the metric; together with the omitted rows it is a permutation of the
dataset, and every returned record's metric value is at least the metric
value of every omitted record.  All four properties are invariant under the
ordering of tied rows, so they hold on both the fast (stable mergesort,
N < |D|) and slow (`sort_values` + head, N >= |D|) paths of `nlargest`. -/
theorem topn_selector_spec (col : NumCol) (n : Nat) (d : List Record) :
    (nlargestBy (colVal col) n d).length = min n d.length ∧
    (nlargestBy (colVal col) n d).Pairwise
      (fun a b => colVal col b ≤ colVal col a) ∧
    (nlargestBy (colVal col) n d ++ nlargestOmitted (colVal col) n d).Perm d ∧
    (∀ a ∈ nlargestBy (colVal col) n d, ∀ b ∈ nlargestOmitted (colVal col) n d,
      colVal col b ≤ colVal col a) := by
  obtain ⟨s, hperm, hsorted, hby, hom⟩ :
      ∃ s : List Record, s.Perm d ∧
        s.Pairwise (fun a b => colVal col b ≤ colVal col a) ∧
        nlargestBy (colVal col) n d = s.take n ∧
        nlargestOmitted (colVal col) n d = s.drop n := by
    by_cases h : d.length ≤ n
    · exact ⟨sort_values_desc (colVal col) d,
        sort_values_desc_perm _ d, sort_values_desc_sorted _ d,
        by rw [nlargestBy, if_pos h], by rw [nlargestOmitted, if_pos h]⟩
    · refine ⟨(sortIdxDesc (colVal col) d).map (fun p => p.2),
        sortIdxDesc_snd_perm _ d, ?_, ?_, ?_⟩
      · exact (sortIdxDesc_sorted _ d).map _ (by
          intro a b hab
          rcases hab with h1 | h1
          · exact le_of_lt h1
          · exact le_of_eq h1.1.symm)
      · rw [nlargestBy, if_neg h, List.map_take]
      · rw [nlargestOmitted, if_neg h, List.map_drop]
  refine ⟨?_, ?_, ?_, ?_⟩
  · rw [hby, List.length_take, hperm.length_eq]
  · rw [hby]
    exact hsorted.sublist (List.take_sublist n s)
  · rw [hby, hom, List.take_append_drop]
    exact hperm
  · intro a ha b hb
    rw [hby] at ha
    rw [hom] at hb
    exact (List.pairwise_append.mp
      (by rw [List.take_append_drop]; exact hsorted)).2.2 a ha b hb

/-- Claim C2 witness: on the §8 scenario with N = 2, the excluded
bestbuy.com row's citation count is at most the returned meta.com row's. -/
theorem topn_selector_spec_witness :
    colVal NumCol.cited rBest ≤ colVal NumCol.cited rMeta :=
  (topn_selector_spec NumCol.cited 2 dScen).2.2.2 rMeta (by decide) rBest (by decide)

/-- Claim C3 (amended): for N < |D| — pandas' fast `nlargest` path, which
argsorts with a stable mergesort — metric ties are broken by original
dataset order: in the stable descending order the fast path takes, each
pair carries its original position (`d[i]? = some r`), tied selected
records appear in increasing original position, every tied record that was
excluded sits at a later original position than every tied record that was
selected, and the selector output is exactly the row part of the selected
pairs.  For N >= |D| the claim fails: `nlargest` delegates to
`sort_values(ascending=False).head(N)`, whose tied rows come out in
reversed original order (see the counterexample). -/
theorem topn_tie_break_fast_path (col : NumCol) (n : Nat) (d : List Record)
    (hn : n < d.length) :
    (∀ p ∈ sortIdxDesc (colVal col) d, d[p.1]? = some p.2) ∧
    ((sortIdxDesc (colVal col) d).take n).Pairwise
      (fun a b => colVal col a.2 = colVal col b.2 → a.1 < b.1) ∧
    (∀ a ∈ (sortIdxDesc (colVal col) d).take n,
      ∀ b ∈ (sortIdxDesc (colVal col) d).drop n,
        colVal col a.2 = colVal col b.2 → a.1 < b.1) ∧
    nlargestBy (colVal col) n d = ((sortIdxDesc (colVal col) d).take n).map (fun p => p.2) := by
  set key := colVal col with hkey
  have hsorted := sortIdxDesc_sorted key d
  have hne : (sortIdxDesc key d).Pairwise (fun a b => a.1 ≠ b.1) :=
    (List.pairwise_map.mp (List.Nodup.sublist (List.Sublist.refl _)
      (sortIdxDesc_fst_nodup key d)))
  have hcomb : (sortIdxDesc key d).Pairwise
      (fun a b => descRel key a b ∧ a.1 ≠ b.1) := hsorted.and hne
  have hstrict : ∀ a b : Nat × Record,
      (descRel key a b ∧ a.1 ≠ b.1) → (key a.2 = key b.2 → a.1 < b.1) := by
    intro a b h heq
    rcases h.1 with h1 | h1
    · omega
    · have := h.2
      omega
  refine ⟨?_, ?_, ?_, by rw [nlargestBy, if_neg (by omega)]⟩
  · intro p hp
    have : p ∈ d.enum := (sortIdxDesc_perm key d).subset hp
    exact List.mem_enum_iff_getElem?.mp this
  · exact (hcomb.sublist (List.take_sublist n _)).imp (by
      intro a b h
      exact hstrict a b h)
  · intro a ha b hb
    have hcross := (List.pairwise_append.mp
      (by rw [List.take_append_drop]; exact hcomb)).2.2 a ha b hb
    exact hstrict a b hcross

/-- Claim C3 witness: on the tied two-row dataset with N = 1 < 2 (the fast
path), the selected tied pair is the row at position 0 and the excluded
tied pair sits at the later position 1. -/
theorem topn_tie_break_fast_path_witness :
    dTie[(0 : Nat)]? = some rTieA ∧ (0 : Nat) < 1 :=
  ⟨(topn_tie_break_fast_path NumCol.cited 1 dTie (by decide)).1 (0, rTieA) (by decide),
   (topn_tie_break_fast_path NumCol.cited 1 dTie (by decide)).2.2.1 (0, rTieA) (by decide)
     (1, rTieB) (by decide) (by decide)⟩

/-- Claim C3 counterexample: with N = 5 >= |D| = 2 (inside the claim's
"every N >= 0"), `nlargest` takes the slow
`sort_values(ascending=False).head(n)` path and the two rows tied on
`# of times Cited` come back in REVERSED original order, so the tie is not
broken by original dataset order and the earlier tied record does not
appear earlier in the output. -/
theorem topn_tie_reversed_on_slow_path :
    nlargestBy (colVal NumCol.cited) 5 dTie = [rTieB, rTieA] ∧
    dTie = [rTieA, rTieB] ∧ rTieA ≠ rTieB := by decide

/-! ### Group aggregation lemmas -/

/-- The group index contains no duplicate keys. -/
lemma groupKeys_nodup (key : Record → String) (d : List Record) :
    (groupKeys key d).Nodup :=
  (List.perm_insertionSort _ _).symm.nodup (List.nodup_dedup _)

/-- A value appears in the group index exactly when some row has it as key. -/
lemma mem_groupKeys (key : Record → String) (d : List Record) (g : String) :
    g ∈ groupKeys key d ↔ ∃ r ∈ d, key r = g := by
  rw [groupKeys, List.mem_insertionSort, List.mem_dedup, List.mem_map]

/-- Summing a pointwise sum of two functions over a list splits. -/
lemma sum_map_add_split (l : List String) (f g : String → Nat) :
    (l.map (fun x => f x + g x)).sum = (l.map f).sum + (l.map g).sum := by
  induction l with
  | nil => rfl
  | cons a t ih =>
    simp only [List.map_cons, List.sum_cons, ih]
    omega

/-- Over a duplicate-free key list containing `x`, the indicator sum
collapses to the single value at `x`. -/
lemma sum_map_indicator (v : Nat) (x : String) :
    ∀ keys : List String, keys.Nodup → x ∈ keys →
      (keys.map (fun g => if x = g then v else 0)).sum = v := by
  intro keys
  induction keys with
  | nil =>
    intro _ hx
    cases hx
  | cons g ks ih =>
    intro hnd hx
    rw [List.nodup_cons] at hnd
    by_cases hxg : x = g
    · subst hxg
      have hzero : (ks.map (fun g => if x = g then v else 0)).sum = 0 := by
        have : ∀ y ∈ ks.map (fun g => if x = g then v else 0), y = 0 := by
          intro y hy
          rw [List.mem_map] at hy
          obtain ⟨g1, hg1, rfl⟩ := hy
          have : x ≠ g1 := fun h => hnd.1 (h ▸ hg1)
          simp [this]
        exact List.sum_eq_zero this
      simp [hzero]
    · have hx2 : x ∈ ks := by
        rcases List.mem_cons.mp hx with h | h
        · exact absurd h hxg
        · exact h
      simp only [List.map_cons, List.sum_cons, if_neg hxg, ih hnd.2 hx2]
      omega

/-- Partition law at the level of an arbitrary duplicate-free covering key
list: grouping the dataset by `key`, per-group sums of `f` add up to the
full-dataset sum of `f`. -/
lemma sum_filter_partition (key : Record → String) (f : Record → Nat)
    (keys : List String) (hnd : keys.Nodup) :
    ∀ d : List Record, (∀ r ∈ d, key r ∈ keys) →
      (keys.map (fun g => ((d.filter (fun r => decide (key r = g))).map f).sum)).sum
        = (d.map f).sum := by
  intro d
  induction d with
  | nil =>
    intro _
    have : ∀ y ∈ keys.map (fun g =>
        ((List.filter (fun r => decide (key r = g)) []).map f).sum), y = 0 := by
      intro y hy
      rw [List.mem_map] at hy
      obtain ⟨g1, _, rfl⟩ := hy
      rfl
    simp [List.sum_eq_zero this]
  | cons r t ih =>
    intro hcov
    have hsplit : (fun g => (((r :: t).filter (fun x => decide (key x = g))).map f).sum)
        = fun g => (if key r = g then f r else 0)
            + ((t.filter (fun x => decide (key x = g))).map f).sum := by
      funext g
      by_cases h : key r = g
      · simp [List.filter_cons, h]
      · simp [List.filter_cons, h]
    rw [hsplit, sum_map_add_split, sum_map_indicator (f r) (key r) keys hnd
      (hcov r (List.mem_cons_self r t)), ih (fun x hx => hcov x (List.mem_cons_of_mem r hx))]
    simp

/-- Per-group cited totals add up to the dataset-wide cited total. -/
lemma groupAgg_cited_total (key : Record → String) (d : List Record) :
    ((groupAgg key d).map (fun p => p.2.1)).sum = (d.map Record.cited).sum := by
  rw [groupAgg, List.map_map]
  exact sum_filter_partition key Record.cited (groupKeys key d) (groupKeys_nodup key d) d
    (fun r hr => (mem_groupKeys key d (key r)).mpr ⟨r, hr, rfl⟩)

/-- Per-group URL totals add up to the dataset-wide URL total. -/
lemma groupAgg_urls_total (key : Record → String) (d : List Record) :
    ((groupAgg key d).map (fun p => p.2.2.1)).sum = (d.map Record.urls).sum := by
  rw [groupAgg, List.map_map]
  exact sum_filter_partition key Record.urls (groupKeys key d) (groupKeys_nodup key d) d
    (fun r hr => (mem_groupKeys key d (key r)).mpr ⟨r, hr, rfl⟩)

/-- Per-group query totals add up to the dataset-wide query total. -/
lemma groupAgg_queries_total (key : Record → String) (d : List Record) :
    ((groupAgg key d).map (fun p => p.2.2.2)).sum = (d.map Record.queries).sum := by
  rw [groupAgg, List.map_map]
  exact sum_filter_partition key Record.queries (groupKeys key d) (groupKeys_nodup key d) d
    (fun r hr => (mem_groupKeys key d (key r)).mpr ⟨r, hr, rfl⟩)

/-- Claim C4 (partition law): each record carries exactly one Category and
one Audience Cluster value, so the distinct group values partition the
dataset, and for each summed numeric column the per-group totals of
`category_stats` (lines 111-115) and of `audience_stats` (lines 182-186)
add up to the dataset-wide total of that column. -/
theorem group_sums_partition_law (d : List Record) :
    ((category_stats d).map (fun p => p.2.1)).sum = (d.map Record.cited).sum ∧
    ((category_stats d).map (fun p => p.2.2.1)).sum = (d.map Record.urls).sum ∧
    ((category_stats d).map (fun p => p.2.2.2)).sum = (d.map Record.queries).sum ∧
    ((audience_stats d).map (fun p => p.2.1)).sum = (d.map Record.cited).sum ∧
    ((audience_stats d).map (fun p => p.2.2.1)).sum = (d.map Record.urls).sum ∧
    ((audience_stats d).map (fun p => p.2.2.2)).sum = (d.map Record.queries).sum :=
  ⟨groupAgg_cited_total Record.category d,
   groupAgg_urls_total Record.category d,
   groupAgg_queries_total Record.category d,
   groupAgg_cited_total Record.audienceCluster d,
   groupAgg_urls_total Record.audienceCluster d,
   groupAgg_queries_total Record.audienceCluster d⟩

/-! ### Metric lookup lemmas -/

/-- A grouped cited lookup comes back empty exactly when no row carries the
requested group value. -/
lemma lookup_none_iff (key : Record → String) (d : List Record) (g : String) :
    (citedValues (groupAgg key d) g).head? = none ↔ ∀ r ∈ d, key r ≠ g := by
  rw [List.head?_eq_none_iff, citedValues, List.map_eq_nil_iff, List.filter_eq_nil_iff]
  constructor
  · intro h r hr hkey
    have hg : key r ∈ groupKeys key d := (mem_groupKeys key d (key r)).mpr ⟨r, hr, rfl⟩
    exact h _ (List.mem_map_of_mem _ hg) (by simp [hkey])
  · intro h p hp
    rw [groupAgg, List.mem_map] at hp
    obtain ⟨g1, hg1, rfl⟩ := hp
    intro hdec
    rw [decide_eq_true_eq] at hdec
    obtain ⟨r, hr, hkr⟩ := (mem_groupKeys key d g1).mp hg1
    exact h r hr (hkr.trans hdec)

/-- Claim C1 (amended): the audience-cluster metrics (lines 190-201) and the
brand metrics (lines 162, 168) use the guarded
`values[0] if len(...) > 0 else "N/A"` pattern and yield the explicit "N/A"
sentinel whenever the requested group or brand has no matching rows, without
raising; but the per-category citation totals (lines 122, 128) subscript
`.values[0]` unguarded and raise `IndexError` (embedded as `none`) exactly
when the category is absent, so they are total only on datasets that contain
at least one "Earned" and one "Social" row. -/
theorem lookup_unavailable_semantics (d : List Record) :
    (totalCitationsEarned d = none ↔ ∀ r ∈ d, r.category ≠ "Earned") ∧
    (totalCitationsSocial d = none ↔ ∀ r ∈ d, r.category ≠ "Social") ∧
    ((∀ r ∈ d, r.audienceCluster ≠ "general") → generalAudienceCitations d = "N/A") ∧
    ((∀ r ∈ d, r.audienceCluster ≠ "techie") → techieAudienceCitations d = "N/A") ∧
    ((∀ r ∈ d, r.domain ≠ "meta.com") → metaComCitations d = "N/A") ∧
    ((∀ r ∈ d, r.domain ≠ "ray-ban.com") → rayBanComCitations d = "N/A") := by
  refine ⟨lookup_none_iff Record.category d "Earned",
          lookup_none_iff Record.category d "Social", ?_, ?_, ?_, ?_⟩
  · intro h
    have hnone := (lookup_none_iff Record.audienceCluster d "general").mpr h
    simp [generalAudienceCitations, audience_stats, hnone]
  · intro h
    have hnone := (lookup_none_iff Record.audienceCluster d "techie").mpr h
    simp [techieAudienceCitations, audience_stats, hnone]
  · intro h
    have hnil : (meta_brands d).filter (fun r => decide (r.domain = "meta.com")) = [] := by
      rw [List.filter_eq_nil_iff]
      intro r hr
      have : r ∈ d := (List.mem_filter.mp hr).1
      simp [h r this]
    simp [metaComCitations, hnil]
  · intro h
    have hnil : (meta_brands d).filter (fun r => decide (r.domain = "ray-ban.com")) = [] := by
      rw [List.filter_eq_nil_iff]
      intro r hr
      have : r ∈ d := (List.mem_filter.mp hr).1
      simp [h r this]
    simp [rayBanComCitations, hnil]

/-- Claim C1 witness: on the one-row Social dataset, the Earned category
lookup raises (no "Earned" group) while the guarded techie audience metric
produces the "N/A" sentinel. -/
theorem lookup_unavailable_semantics_witness :
    totalCitationsEarned [rBest] = none ∧ techieAudienceCitations [rBest] = "N/A" :=
  ⟨(lookup_unavailable_semantics [rBest]).1.mpr (by decide),
   (lookup_unavailable_semantics [rBest]).2.2.2.1 (by decide)⟩

/-- Claim C1 counterexample: on a dataset whose only row is Social, the
Total Citations (Earned) metric does not surface an "N/A" sentinel — the
unguarded `.values[0]` at line 122 hits an empty selection and raises
`IndexError` (embedded as `none`), so the per-category citation-total
metrics are not total sentinel-producing functions of the dataset. -/
theorem earned_lookup_raises_on_missing_group :
    totalCitationsEarned [rBest] = none := by decide

/-! ### Brand substring filter lemmas -/

/-- `prefixCI` decides case-folded prefixhood. -/
lemma prefixCI_iff (p : List Char) :
    ∀ s : List Char, prefixCI p s = true ↔
      (p.map Char.toLower) <+: (s.map Char.toLower) := by
  induction p with
  | nil =>
    intro s
    simp [prefixCI]
  | cons c ps ih =>
    intro s
    cases s with
    | nil => simp [prefixCI]
    | cons a ss =>
      simp [prefixCI, charLowerEq, Bool.and_eq_true, beq_iff_eq, ih ss,
        List.cons_prefix_cons]

/-- `searchCI` decides case-folded substring occurrence
(`re.search` of a literal pattern with `re.IGNORECASE`). -/
lemma searchCI_iff (p : List Char) :
    ∀ s : List Char, searchCI p s = true ↔
      (p.map Char.toLower) <:+: (s.map Char.toLower) := by
  intro s
  induction s with
  | nil =>
    simp [searchCI, prefixCI_iff]
  | cons c ss ih =>
    simp [searchCI, Bool.or_eq_true, prefixCI_iff, ih, List.infix_cons_iff]

/-- The brand filter keeps exactly the rows whose case-folded Domain
contains the case-folded pattern as an infix. -/
lemma brandFilterCI_eq_filter (p : String) (d : List Record) :
    brandFilterCI p d
      = d.filter (fun r => decide (lowerChars p <:+: lowerChars r.domain)) := by
  rw [brandFilterCI]
  apply List.filter_congr
  intro r _
  rw [strContainsCI, lowerChars, lowerChars]
  have h := searchCI_iff p.toList r.domain.toList
  by_cases hc : (p.toList.map Char.toLower) <:+: (r.domain.toList.map Char.toLower)
  · rw [h.mpr hc]
    exact (decide_eq_true hc).symm
  · have hf : searchCI p.toList r.domain.toList = false := by
      cases hb : searchCI p.toList r.domain.toList
      · rfl
      · exact absurd (h.mp hb) hc
    rw [hf]
    exact (decide_eq_false hc).symm

/-- Claim C5: the Brand Substring Filter (line 152, `str.contains` with
`case=False`) is case-insensitive — the patterns "META" and "meta" produce
identical result lists — and in general it returns exactly the sublist of
rows whose Domain contains the pattern as a substring regardless of letter
case. -/
theorem brand_filter_case_insensitive (d : List Record) (p : String) :
    brandFilterCI "META" d = brandFilterCI "meta" d ∧
    brandFilterCI p d
      = d.filter (fun r => decide (lowerChars p <:+: lowerChars r.domain)) := by
  constructor
  · rw [brandFilterCI_eq_filter, brandFilterCI_eq_filter,
      show lowerChars "META" = lowerChars "meta" from by decide]
  · exact brandFilterCI_eq_filter p d

/-! ### Data Explorer sort lemmas -/

/-- With pairwise-distinct column values, the descending sort is strictly
descending. -/
lemma sort_values_desc_strict (key : Record → Int) (d : List Record)
    (h : ((d.map key).Nodup)) :
    (sort_values_desc key d).Pairwise (fun a b => key b < key a) := by
  have hperm : ((sort_values_desc key d).map key).Perm (d.map key) :=
    (sort_values_desc_perm key d).map key
  have hnd : ((sort_values_desc key d).map key).Nodup := hperm.symm.nodup h
  have hne : (sort_values_desc key d).Pairwise (fun a b => key a ≠ key b) :=
    List.pairwise_map.mp hnd
  exact ((sort_values_desc_sorted key d).and hne).imp (by
    intro a b hab
    rcases hab with ⟨h1, h2⟩
    omega)

/-- Two sorted permutations of each other under an asymmetric relation are
equal (strict-descending orders are unique). -/
lemma perm_pairwise_strict_eq (key : Record → Int) :
    ∀ (l1 l2 : List Record), l1.Perm l2 →
      l1.Pairwise (fun a b => key b < key a) →
      l2.Pairwise (fun a b => key b < key a) → l1 = l2
  | [], l2, hp, _, _ => by
    rw [(hp.symm.eq_nil)]
  | a :: t1, l2, hp, h1, h2 => by
    cases l2 with
    | nil => exact absurd hp.eq_nil (by simp)
    | cons b t2 =>
      have hab : a = b := by
        have ha2 : a ∈ b :: t2 := hp.subset (List.mem_cons_self a t1)
        rcases List.mem_cons.mp ha2 with h | ha2
        · exact h
        · have hb1 : b ∈ a :: t1 := hp.symm.subset (List.mem_cons_self b t2)
          rcases List.mem_cons.mp hb1 with h | hb1
          · exact h.symm
          · have r1 : key b < key a := (List.pairwise_cons.mp h1).1 b hb1
            have r2 : key a < key b := (List.pairwise_cons.mp h2).1 a ha2
            omega
      subst hab
      rw [perm_pairwise_strict_eq key t1 t2 hp.cons_inv
        (List.pairwise_cons.mp h1).2 (List.pairwise_cons.mp h2).2]

/-- Membership is preserved by `uniqueFirst`. -/
lemma mem_uniqueFirst (x : String) :
    ∀ l : List String, x ∈ uniqueFirst l ↔ x ∈ l := by
  intro l
  induction l with
  | nil => simp [uniqueFirst]
  | cons c cs ih =>
    by_cases hxc : x = c
    · subst hxc
      simp [uniqueFirst]
    · simp [uniqueFirst, List.mem_filter, hxc, ih]

/-- Every row of the dataset passes the all-categories filter. -/
lemma filter_all_categories (d e : List Record) (hsub : ∀ r ∈ e, r ∈ d) :
    filterByCategories (distinctCategories d) e = e := by
  rw [filterByCategories, List.filter_eq_self]
  intro r hr
  rw [List.contains_iff_exists_mem_beq]
  refine ⟨r.category, ?_, by simp⟩
  rw [distinctCategories, mem_uniqueFirst]
  exact List.mem_map_of_mem Record.category (hsub r hr)

/-- Claim C6 (amended): the Filter+Sort View (lines 222, 230) returns
exactly the rows whose Category is in the allowed set — its output is a
permutation of the `isin` filter's output — sorted in descending order of
the chosen column.  The sort is NOT stable: pandas `sort_values` with
`ascending=False` reverses an ascending argsort, so rows with equal
sort-column values come out in reversed original order (see the
counterexample), and with the default quicksort kind the tie order is
unspecified for large inputs. -/
theorem data_explorer_filter_sort_spec (cats : List String) (col : NumCol)
    (d : List Record) :
    (dataExplorer cats col d).Perm (filterByCategories cats d) ∧
    (dataExplorer cats col d).Pairwise
      (fun a b => colVal col b ≤ colVal col a) :=
  ⟨sort_values_desc_perm (colVal col) (filterByCategories cats d),
   sort_values_desc_sorted (colVal col) (filterByCategories cats d)⟩

/-- Claim C6 counterexample: the two rows of `dTie` are tied on
`# of times Cited` and both pass the category filter, yet the view returns
them in reversed original order, so the sort is not stable in the claimed
sense. -/
theorem data_explorer_sort_not_stable :
    dataExplorer ["Earned"] NumCol.cited dTie = [rTieB, rTieA] ∧
    dTie = [rTieA, rTieB] ∧ rTieA ≠ rTieB := by decide

/-- Claim C7 (amended): with the allowed set equal to all distinct Category
values of the dataset, applying the Filter+Sort View twice yields the same
ordered sequence as applying it once PROVIDED the sort-column values are
pairwise distinct.  (On ties it fails: each application reverses the tied
rows' order, see the counterexample.) -/
theorem data_explorer_idempotent_on_distinct_keys (col : NumCol) (d : List Record)
    (h : ((d.map (colVal col)).Nodup)) :
    dataExplorer (distinctCategories d) col
        (dataExplorer (distinctCategories d) col d)
      = dataExplorer (distinctCategories d) col d := by
  have hfd : filterByCategories (distinctCategories d) d = d :=
    filter_all_categories d d (fun r hr => hr)
  have hvd : (dataExplorer (distinctCategories d) col d).Perm d := by
    rw [dataExplorer, hfd]
    exact sort_values_desc_perm (colVal col) d
  have hfv : filterByCategories (distinctCategories d)
      (dataExplorer (distinctCategories d) col d)
        = dataExplorer (distinctCategories d) col d :=
    filter_all_categories d _ (fun r hr => hvd.subset hr)
  have hvnd : ((dataExplorer (distinctCategories d) col d).map (colVal col)).Nodup :=
    ((hvd.map (colVal col)).symm).nodup h
  have hstrict_v : (dataExplorer (distinctCategories d) col d).Pairwise
      (fun a b => colVal col b < colVal col a) := by
    rw [dataExplorer, hfd]
    exact sort_values_desc_strict (colVal col) d h
  have hstrict_lhs : (sort_values_desc (colVal col)
      (dataExplorer (distinctCategories d) col d)).Pairwise
        (fun a b => colVal col b < colVal col a) :=
    sort_values_desc_strict (colVal col) _ hvnd
  calc dataExplorer (distinctCategories d) col
          (dataExplorer (distinctCategories d) col d)
      = sort_values_desc (colVal col) (dataExplorer (distinctCategories d) col d) := by
        rw [dataExplorer, hfv]
    _ = dataExplorer (distinctCategories d) col d :=
        perm_pairwise_strict_eq (colVal col) _ _
          (sort_values_desc_perm (colVal col) _) hstrict_lhs hstrict_v

/-- Claim C7 witness: on the §8 scenario dataset, whose citation counts are
pairwise distinct, the no-op-filter Filter+Sort View is idempotent. -/
theorem data_explorer_idempotent_witness :
    dataExplorer (distinctCategories dScen) NumCol.cited
        (dataExplorer (distinctCategories dScen) NumCol.cited dScen)
      = dataExplorer (distinctCategories dScen) NumCol.cited dScen :=
  data_explorer_idempotent_on_distinct_keys NumCol.cited dScen (by decide)

/-- Claim C7 counterexample: on the tied two-row dataset, one application of
the view returns the rows reversed and a second application reverses them
back, so applying the view twice does not yield the same ordered sequence
as applying it once. -/
theorem data_explorer_not_idempotent_on_ties :
    dataExplorer (distinctCategories dTie) NumCol.cited
        (dataExplorer (distinctCategories dTie) NumCol.cited dTie)
      ≠ dataExplorer (distinctCategories dTie) NumCol.cited dTie ∧
    dataExplorer (distinctCategories dTie) NumCol.cited dTie = [rTieB, rTieA] ∧
    dataExplorer (distinctCategories dTie) NumCol.cited [rTieB, rTieA]
      = [rTieA, rTieB] := by decide

/-! ### Loader, purity and row-count claims -/

/-- Claim C8 (amended): the Dataset Loader (lines 14-27) either returns the
parsed table or fails with a `DataLoadError`; it fails when the file is
missing (`FileNotFoundError`) or non-tabular (a row wider than the header,
`ParserError`) — but it performs NO required-column validation: success
depends only on the file being present and tabular, never on
`requiredColumns`, so a CSV that omits required columns loads silently and
the missing column only surfaces later inside an aggregation
(e.g. `KeyError` in `nlargest`). -/
theorem loader_failure_semantics (file : Option CsvFile) :
    (get_brand_data file = Except.error DataLoadError.fileNotFound ↔ file = none) ∧
    (∀ t : CsvFile, get_brand_data file = Except.ok t ↔
      (file = some t ∧
        t.rows.all (fun r => decide (r.length ≤ t.header.length)) = true)) := by
  cases file with
  | none =>
    constructor
    · simp [get_brand_data, read_csv]
    · intro t
      simp [get_brand_data, read_csv]
  | some t0 =>
    by_cases h : t0.rows.all (fun r => decide (r.length ≤ t0.header.length)) = true
    · constructor
      · simp [get_brand_data, read_csv, h]
      · intro t
        simp only [get_brand_data, read_csv, if_pos h, Option.some.injEq]
        constructor
        · intro he
          cases he
          exact ⟨rfl, h⟩
        · rintro ⟨heq, _⟩
          subst heq
          rfl
    · constructor
      · simp [get_brand_data, read_csv, h]
      · intro t
        simp only [get_brand_data, read_csv, if_neg h]
        constructor
        · intro he
          cases he
        · rintro ⟨heq, hok⟩
          injection heq with heq
          subst heq
          exact absurd hok h

/-- Claim C8 witness: a missing file fails with the file-not-found error,
and a present well-formed table loads. -/
theorem loader_failure_semantics_witness :
    get_brand_data none = Except.error DataLoadError.fileNotFound ∧
    get_brand_data (some ⟨["Domain"], []⟩) = Except.ok ⟨["Domain"], []⟩ :=
  ⟨(loader_failure_semantics none).1.mpr rfl,
   ((loader_failure_semantics (some ⟨["Domain"], []⟩)).2 ⟨["Domain"], []⟩).mpr
     ⟨rfl, by decide⟩⟩

/-- A single-column CSV omitting every other required column. -/
def csvMissingCols : CsvFile := ⟨["Domain"], [["x.com"]]⟩

/-- Claim C8 counterexample: a CSV whose header lacks the required
`# of times Cited` column (and five others) is loaded successfully by
`get_brand_data` — the load succeeds silently instead of failing with a
`DataLoadError`. -/
theorem loader_accepts_missing_columns :
    get_brand_data (some csvMissingCols) = Except.ok csvMissingCols ∧
    "# of times Cited" ∈ requiredColumns ∧
    "# of times Cited" ∉ csvMissingCols.header :=
  ⟨rfl, by decide, by decide⟩

/-- Each view computation hands the dataset back unchanged. -/
lemma applyView_fst (op : ViewOp) (d : List Record) : (applyView op d).1 = d := by
  cases op <;> rfl

/-- Claim C9: the dataset is read-only — after computing any sequence of
aggregation views, the dataset equals the dataset as loaded — and each
view's output is a pure function of the dataset and its parameters alone:
computing it after any earlier sequence of views gives the same output as
computing it on the freshly loaded dataset. -/
theorem views_readonly_pure (ops : List ViewOp) (d : List Record) :
    runViews ops d = d ∧
    (∀ op : ViewOp, applyView op (runViews ops d) = applyView op d) := by
  have hrun : ∀ (ops : List ViewOp) (d : List Record), runViews ops d = d := by
    intro ops
    induction ops with
    | nil =>
      intro d
      rfl
    | cons op t ih =>
      intro d
      rw [runViews, List.foldl_cons, applyView_fst]
      exact ih d
  refine ⟨hrun ops d, ?_⟩
  intro op
  rw [hrun ops d]

/-- Claim C10: the "Overall Unique Domains" metric (line 134) is
`len(eyewear_df)`, the total record count: it equals the sum over distinct
Domain values of each value's multiplicity, so a Domain occurring k > 1
times contributes k, and the metric is not the distinct-Domain count. -/
theorem overall_unique_domains_is_row_count (d : List Record) :
    overallUniqueDomains d = d.length ∧
    overallUniqueDomains d
      = (((d.map Record.domain).dedup).map
          (fun v => (d.map Record.domain).count v)).sum := by
  constructor
  · rfl
  · rw [overallUniqueDomains, List.sum_map_count_dedup_eq_length, List.length_map]
